import Mathlib

/-!
# Verification of the SQLAlchemy C extension core

Shallow embedding of the C extension modules `utils.c` (`distill_params`),
`immutabledict.c` (`ImmutableDict`), and `resultproxy.c` (`BaseRow`) from
`lib/sqlalchemy/cextension/`, together with proofs of the specified
properties of parameter distillation, the immutable mapping, and the row
object.

Python objects are embedded as the inductive type `PyValue`; fallible C
API paths return `Except PyErr`.
-/

set_option maxHeartbeats 1000000

namespace SqlaC

/-- Embedding of the Python objects handled by the C extension modules:
`None`, ints, strings, tuples, lists, dicts (association lists preserving
insertion order), slice objects, and opaque third-party objects whose only
relevant observable behaviour is which of the duck-typing attributes
(`__iter__`, `strip`, `keys`) they expose. -/
inductive PyValue where
  | none
  | int (n : Int)
  | str (s : String)
  | tuple (xs : List PyValue)
  | list (xs : List PyValue)
  | dict (entries : List (PyValue × PyValue))
  | slice (start stop : Option Int)
  | obj (name : String) (hasIter hasStrip hasKeys : Bool)
deriving Repr

mutual

/-- Structural equality of embedded Python values (the `==`/`PyObject_RichCompare`
equality relevant to dict key lookup for the value shapes modelled here). -/
def PyValue.pyEq : PyValue → PyValue → Bool
  | .none, .none => true
  | .int a, .int b => a == b
  | .str a, .str b => a == b
  | .tuple xs, .tuple ys => PyValue.pyEqList xs ys
  | .list xs, .list ys => PyValue.pyEqList xs ys
  | .dict xs, .dict ys => PyValue.pyEqPairs xs ys
  | .slice a b, .slice c d => a == c && b == d
  | .obj n a b c, .obj m d e f => n == m && a == d && b == e && c == f
  | _, _ => false

/-- Elementwise `pyEq` on lists of values. -/
def PyValue.pyEqList : List PyValue → List PyValue → Bool
  | [], [] => true
  | x :: xs, y :: ys => PyValue.pyEq x y && PyValue.pyEqList xs ys
  | _, _ => false

/-- Elementwise `pyEq` on lists of key/value pairs. -/
def PyValue.pyEqPairs : List (PyValue × PyValue) → List (PyValue × PyValue) → Bool
  | [], [] => true
  | (k, v) :: ps, (l, w) :: qs =>
      PyValue.pyEq k l && PyValue.pyEq v w && PyValue.pyEqPairs ps qs
  | _, _ => false

end

theorem PyValue.one_le_sizeOf (a : PyValue) : 1 ≤ sizeOf a := by
  cases a <;> simp_arith

theorem PyValue.pyEqList_iff_aux (n : Nat)
    (ih : ∀ a b : PyValue, sizeOf a ≤ n → (PyValue.pyEq a b = true ↔ a = b)) :
    ∀ xs ys : List PyValue, sizeOf xs ≤ n + 1 →
      (PyValue.pyEqList xs ys = true ↔ xs = ys) := by
  intro xs
  induction xs with
  | nil => intro ys _; cases ys <;> simp [PyValue.pyEqList]
  | cons x xs ihl =>
    intro ys h
    cases ys with
    | nil => simp [PyValue.pyEqList]
    | cons y ys =>
      simp only [List.cons.sizeOf_spec] at h
      have h1 : sizeOf x ≤ n := by omega
      have h2 : sizeOf xs ≤ n + 1 := by omega
      simp [PyValue.pyEqList, ih x y h1, ihl ys h2]

theorem PyValue.pyEqPairs_iff_aux (n : Nat)
    (ih : ∀ a b : PyValue, sizeOf a ≤ n → (PyValue.pyEq a b = true ↔ a = b)) :
    ∀ ps qs : List (PyValue × PyValue), sizeOf ps ≤ n + 1 →
      (PyValue.pyEqPairs ps qs = true ↔ ps = qs) := by
  intro ps
  induction ps with
  | nil => intro qs _; cases qs <;> simp [PyValue.pyEqPairs]
  | cons p ps ihl =>
    intro qs h
    obtain ⟨k, v⟩ := p
    cases qs with
    | nil => simp [PyValue.pyEqPairs]
    | cons q qs =>
      obtain ⟨l, w⟩ := q
      simp only [List.cons.sizeOf_spec, Prod.mk.sizeOf_spec] at h
      have h1 : sizeOf k ≤ n := by omega
      have h2 : sizeOf v ≤ n := by omega
      have h3 : sizeOf ps ≤ n + 1 := by omega
      simp [PyValue.pyEqPairs, ih k l h1, ih v w h2, ihl qs h3, and_assoc]

theorem PyValue.pyEq_iff_eq_aux :
    ∀ (n : Nat) (a b : PyValue), sizeOf a ≤ n →
      (PyValue.pyEq a b = true ↔ a = b) := by
  intro n
  induction n with
  | zero =>
    intro a b h
    exact absurd h (by have := PyValue.one_le_sizeOf a; omega)
  | succ n ih =>
    intro a b h
    cases a <;> cases b <;> simp [PyValue.pyEq, and_assoc]
    case tuple.tuple xs ys =>
      refine PyValue.pyEqList_iff_aux n ih xs ys ?_
      simp only [PyValue.tuple.sizeOf_spec] at h; omega
    case list.list xs ys =>
      refine PyValue.pyEqList_iff_aux n ih xs ys ?_
      simp only [PyValue.list.sizeOf_spec] at h; omega
    case dict.dict ps qs =>
      refine PyValue.pyEqPairs_iff_aux n ih ps qs ?_
      simp only [PyValue.dict.sizeOf_spec] at h; omega

theorem PyValue.pyEq_iff_eq (a b : PyValue) : PyValue.pyEq a b = true ↔ a = b :=
  PyValue.pyEq_iff_eq_aux (sizeOf a) a b le_rfl

instance : DecidableEq PyValue := fun a b =>
  decidable_of_iff _ (PyValue.pyEq_iff_eq a b)

/-- The Python exceptions raised by the embedded C paths. `ambiguousColumn`
is the AmbiguousKey condition produced through the owner's
`_raise_for_ambiguous_column_name` callback, carrying the keymap record it
was handed (resultproxy.c line 380). -/
inductive PyErr where
  | typeError (msg : String)
  | keyError (msg : String)
  | indexError (msg : String)
  | runtimeError (msg : String)
  | attributeError (msg : String)
  | ambiguousColumn (record : PyValue)
deriving Repr, DecidableEq

/-- `PyObject_HasAttrString(x, "__iter__")`: CPython strings, tuples, lists
and dicts expose `__iter__`; None, ints and slices do not; an opaque object
carries its own flag. -/
def hasAttrIter : PyValue → Bool
  | .str _ | .tuple _ | .list _ | .dict _ => true
  | .obj _ hi _ _ => hi
  | _ => false

/-- `PyObject_HasAttrString(x, "strip")`: the string-likeness probe of
utils.c; only strings (and opaque objects claiming it) expose `strip`. -/
def hasAttrStrip : PyValue → Bool
  | .str _ => true
  | .obj _ _ hs _ => hs
  | _ => false

/-- `PyObject_HasAttrString(x, "keys")`: the mapping-likeness probe of
utils.c; only dicts (and opaque objects claiming it) expose `keys`. -/
def hasAttrKeys : PyValue → Bool
  | .dict _ => true
  | .obj _ _ _ hk => hk
  | _ => false

/-- `PyDict_Size(x)`: the entry count of a dict, and -1 for any other value
(utils.c line 46 reads this result without checking the error it sets, so
the -1 of a non-dict `params` flows into the `!= 0` comparison). -/
def pyDictSizeSigned : PyValue → Int
  | .dict d => d.length
  | _ => -1

/-! ## `distill_params` (utils.c lines 23-176) -/

/-- The `multiparam_size == 0` branch of `distill_params` (utils.c lines
45-65): a non-None, non-empty `params` dict becomes the one unit `[params]`,
anything else yields the empty list. -/
def distillEmpty (params : PyValue) : PyValue :=
  if params ≠ PyValue.none ∧ pyDictSizeSigned params ≠ 0 then .list [params]
  else .list []

/-- The tuple-or-list case of the single-element branch (utils.c lines
68-111): `z` is returned as-is when it is empty or when its FIRST element
has `__iter__` and lacks `strip`; otherwise `z` becomes the one unit of a
fresh list `[z]`. -/
def distillSingleSeq (z : PyValue) (zs : List PyValue) : PyValue :=
  match zs with
  | [] => z
  | item :: _ => if hasAttrIter item && !hasAttrStrip item then z else .list [z]

/-- The `multiparam_size == 1` branch of `distill_params` (utils.c lines
66-152), for `z = multiparams[0]`. -/
def distillSingle (z : PyValue) : PyValue :=
  match z with
  | .tuple zs => distillSingleSeq (.tuple zs) zs
  | .list zs => distillSingleSeq (.list zs) zs
  | _ => if hasAttrKeys z then .list [z] else .list [.list [z]]

/-- `distill_params(multiparams, params)` (utils.c lines 23-176): classify
the `*multiparams, **params` calling shapes into a canonical sequence of
parameter units. A non-None `multiparams` must be a tuple
(`PyTuple_Size` fails otherwise). -/
def distill_params (multiparams params : PyValue) : Except PyErr PyValue :=
  match multiparams with
  | .none => .ok (distillEmpty params)
  | .tuple [] => .ok (distillEmpty params)
  | .tuple [z] => .ok (distillSingle z)
  | .tuple (z0 :: z1 :: rest) =>
      if hasAttrIter z0 && !hasAttrStrip z0 then .ok (.tuple (z0 :: z1 :: rest))
      else .ok (.list [.tuple (z0 :: z1 :: rest)])
  | _ => .error (.typeError "_distill_params argument is not a tuple")

/-! ## ImmutableDict (immutabledict.c)

The internal `PyObject *dict` is embedded as an association list of
key/value pairs in insertion order; `dictSet` is one `d[k] = v` store
(overwrite in place, else append), `dictUpdate` is `PyDict_Update`. -/

/-- `PyDict_GetItem(d, k)`: the value of the first (for a well-formed dict,
only) entry whose key equals `k`, if any. -/
def dictGet (d : List (PyValue × PyValue)) (k : PyValue) : Option PyValue :=
  match d with
  | [] => Option.none
  | (a, v) :: rest => if a = k then some v else dictGet rest k

/-- One CPython dict store `d[k] = v`: replace the value of an existing
entry with an equal key (the stored key object is kept), else append the
new pair at the end. -/
def dictSet (d : List (PyValue × PyValue)) (k v : PyValue) : List (PyValue × PyValue) :=
  match d with
  | [] => [(k, v)]
  | (a, w) :: rest => if a = k then (a, v) :: rest else (a, w) :: dictSet rest k v

/-- `PyDict_Update(d, other)`: store every pair of `other` into `d`, in
`other`'s order. -/
def dictUpdate (d other : List (PyValue × PyValue)) : List (PyValue × PyValue) :=
  other.foldl (fun acc p => dictSet acc p.1 p.2) d

/-- First-wins choice on optional lookup results (`a` if present, else `b`). -/
def optOr (a b : Option PyValue) : Option PyValue :=
  match a with
  | some v => some v
  | Option.none => b

/-- CPython `dict(seq)` construction from an iterable of key/value pairs:
each element must be a 2-element sequence; later pairs overwrite earlier
equal keys. -/
def pairsOfList (xs : List PyValue) : Except PyErr (List (PyValue × PyValue)) :=
  xs.foldlM
    (fun acc x =>
      match x with
      | .tuple [k, v] => .ok (dictSet acc k v)
      | .list [k, v] => .ok (dictSet acc k v)
      | _ => .error (.typeError "cannot convert dictionary update sequence element to a key/value pair"))
    []

/-- CPython `dict(x)`: a dict is copied entry for entry, a tuple or list is
read as a pair sequence, anything else fails with TypeError. -/
def pyDictFromValue : PyValue → Except PyErr (List (PyValue × PyValue))
  | .dict d => .ok d
  | .tuple xs => pairsOfList xs
  | .list xs => pairsOfList xs
  | _ => .error (.typeError "cannot convert argument to a dictionary")

/-- What an ImmutableDict combination operation returns: the very same
instance (`Py_INCREF(self); return self`, the identity fast path) or a
freshly allocated instance holding a new internal dict. -/
inductive DictResult where
  | self
  | newInstance (d : List (PyValue × PyValue))
deriving Repr, DecidableEq

/-- `ImmutableDict.union` (immutabledict.c lines 164-225), called with one
positional argument: a non-dict argument is first converted with `dict()`;
an empty argument returns `self` itself; otherwise a new dict is built by
updating an empty dict with `self`'s entries and then the argument's. -/
def ImmutableDict_union (m : List (PyValue × PyValue)) (arg : PyValue) :
    Except PyErr DictResult :=
  match (match arg with
         | .dict d => Except.ok d
         | _ => pyDictFromValue arg) with
  | .error e => .error e
  | .ok arg_dict =>
    if arg_dict.length = 0 then .ok .self
    else .ok (.newInstance (dictUpdate (dictUpdate [] m) arg_dict))

/-- The argument loop of `ImmutableDict.merge_with` (immutabledict.c lines
238-295). `acc` is the `new_dict` local: `Option.none` while no data has
been received. A None argument is skipped; an empty EXACT dict argument is
skipped; a non-dict argument is converted with `dict()` and folded in even
when the conversion is empty (the C code only also checks emptiness on the
exact-dict path). -/
def mergeLoop (m : List (PyValue × PyValue)) :
    List PyValue → Option (List (PyValue × PyValue)) →
    Except PyErr (Option (List (PyValue × PyValue)))
  | [], acc => .ok acc
  | el :: rest, acc =>
    if el = PyValue.none then mergeLoop m rest acc
    else
      match el with
      | .dict d =>
        if d.length = 0 then mergeLoop m rest acc
        else mergeLoop m rest (some (dictUpdate (acc.getD (dictUpdate [] m)) d))
      | _ =>
        match pyDictFromValue el with
        | .error e => .error e
        | .ok d => mergeLoop m rest (some (dictUpdate (acc.getD (dictUpdate [] m)) d))

/-- `ImmutableDict.merge_with(*args)` (immutabledict.c lines 228-314):
fold the arguments with `mergeLoop`; if no argument contributed data the
very same instance is returned, otherwise a new instance holding the built
dict. -/
def ImmutableDict_merge_with (m : List (PyValue × PyValue)) (args : List PyValue) :
    Except PyErr DictResult :=
  match mergeLoop m args Option.none with
  | .error e => .error e
  | .ok (some d) => .ok (.newInstance d)
  | .ok Option.none => .ok .self

mutual

/-- Whether a value is hashable by CPython: None, ints, strings and opaque
objects are; lists, dicts and slices are not; a tuple is hashable when all
its elements are. -/
def pyHashable : PyValue → Bool
  | .none | .int _ | .str _ => true
  | .tuple xs => pyHashableList xs
  | .list _ | .dict _ | .slice _ _ => false
  | .obj _ _ _ _ => true

/-- `pyHashable` over all elements of a list. -/
def pyHashableList : List PyValue → Bool
  | [] => true
  | x :: xs => pyHashable x && pyHashableList xs

end

/-- `ImmutableDict.__getitem__` (immutabledict.c lines 109-138):
`PyDict_GetItemWithError` fails when the key is unhashable; on a miss the
error path calls `PyUnicode_AsUTF8String(key)`, which succeeds only for a
string key — so only a string key yields the intended KeyError carrying the
key's text, while any other absent key makes the conversion itself raise
TypeError. -/
def ImmutableDict_subscript (m : List (PyValue × PyValue)) (key : PyValue) :
    Except PyErr PyValue :=
  if pyHashable key then
    match dictGet m key with
    | some v => .ok v
    | Option.none =>
      match key with
      | .str s => .error (.keyError s)
      | _ => .error (.typeError "bad argument type for built-in operation")
  else .error (.typeError "unhashable type")

/-! ## BaseRow (resultproxy.c) -/

/-- The result-set descriptor (`self->parent`), an external collaborator.
Modelled from the spec: only its `_key_fallback` secondary-resolution
callback is visible to the Row — "invoked only when lookup reports
NotFound; ... the primary Row component treats this as an opaque callback
supplied by the owner" — returning a keymap record or failing. -/
structure Parent where
  keyFallback : PyValue → Except PyErr PyValue

/-- A column processor: `Option.none` is the `Py_None` no-op sentinel,
otherwise an opaque callable from raw driver value to coerced value (which
may itself raise). -/
abbrev Proc := Option (PyValue → Except PyErr PyValue)

/-- The positions (from offset `k`) of the non-sentinel processors: the
processing loop of `BaseRow_init` calls the processor of exactly these
positions, once each, in ascending order. -/
def procCallPositions : List Proc → Nat → List Nat
  | [], _ => []
  | Option.none :: fs, k => procCallPositions fs (k + 1)
  | some _ :: fs, k => k :: procCallPositions fs (k + 1)

/-- The processing loop of `BaseRow_init` (resultproxy.c lines 137-159),
instrumented with the list of positions (from offset `k`) at which a
processor function was invoked: position `i` stores `func(value_i)` when a
function is present and the raw `value_i` when the entry is the None
sentinel; a failing call aborts the construction. -/
def applyProcessors : List Proc → List PyValue → Nat →
    Except PyErr (List PyValue × List Nat)
  | Option.none :: fs, v :: vs, k =>
    match applyProcessors fs vs (k + 1) with
    | .error e => .error e
    | .ok (rest, tr) => .ok (v :: rest, tr)
  | some f :: fs, v :: vs, k =>
    match f v with
    | .error e => .error e
    | .ok pv =>
      match applyProcessors fs vs (k + 1) with
      | .error e => .error e
      | .ok (rest, tr) => .ok (pv :: rest, k :: tr)
  | _, _, _ => .ok ([], [])

/-- Key-style constant of resultproxy.c line 57: non-integer keys only;
integer keys must go through positional access. -/
def KEY_OBJECTS_ONLY : Int := 1

/-- Key-style constant of resultproxy.c line 58: non-integer soft access is
allowed but draws a deprecation warning. -/
def KEY_OBJECTS_BUT_WARN : Int := 2

/-- The `BaseRow` struct (resultproxy.c lines 43-49): the owning result-set
descriptor, the processed value tuple, the shared keymap dict, and the
key-style mode. -/
structure BaseRow where
  parent : Parent
  row : List PyValue
  keymap : List (PyValue × PyValue)
  key_style : Int

/-- `PySequence_Fast(row, ...)`: tuples and lists yield their elements, a
string yields its characters as 1-character strings, a dict yields its
keys; other values here fail the probe ("row must be a sequence"; iteration
of opaque objects is not modelled). -/
def pySequenceFast : PyValue → Option (List PyValue)
  | .tuple xs => some xs
  | .list xs => some xs
  | .str s => some (s.data.map fun c => .str (String.singleton c))
  | .dict d => some (d.map Prod.fst)
  | _ => Option.none

/-- `PyLong_AsLong` as `BaseRow_init` uses it on `key_style` (resultproxy.c
line 180): the C code does not check the error, so a non-int argument
leaves the -1 error value in the field. -/
def pyLongAsLongLenient : PyValue → Int
  | .int n => n
  | _ => -1

/-- The error message of the value/processor count check (resultproxy.c
lines 122-125). -/
def initLengthMsg (nv np : Nat) : String :=
  s!"number of values in row ({nv}) differ from number of column processors ({np})"

/-- The tail of `BaseRow_init` (resultproxy.c lines 171-181): store the
processed tuple, require the keymap to be an exact dict, and read
`key_style`. -/
def finishInit (parent : Parent) (keymap key_style : PyValue)
    (result : List PyValue) (trace : List Nat) : Except PyErr (BaseRow × List Nat) :=
  match keymap with
  | .dict d =>
    .ok ({ parent := parent, row := result, keymap := d,
           key_style := pyLongAsLongLenient key_style }, trace)
  | _ => .error (.typeError "keymap must be a dict")

/-- `BaseRow_init` (resultproxy.c lines 97-182), instrumented with the
trace of processor invocations: the row argument must be a sequence; with
processors supplied (not `Py_None`) their count must equal the value count
or construction fails with RuntimeError; each value is then passed through
its processor exactly once (`applyProcessors`), and the keymap must be an
exact dict. -/
def BaseRow_init (parent : Parent) (processors : Option (List Proc))
    (keymap key_style row : PyValue) : Except PyErr (BaseRow × List Nat) :=
  match pySequenceFast row with
  | Option.none => .error (.typeError "row must be a sequence")
  | some vs =>
    match processors with
    | some ps =>
      if vs.length ≠ ps.length then
        .error (.runtimeError (initLengthMsg vs.length ps.length))
      else
        match applyProcessors ps vs 0 with
        | .error e => .error e
        | .ok (result, trace) => finishInit parent keymap key_style result trace
    | Option.none => finishInit parent keymap key_style vs []

/-- `BaseRow_getitem` (resultproxy.c lines 322-339): `PyTuple_GetItem` on
the processed tuple — the stored value at `i` when `0 <= i < length`, and
IndexError otherwise; no processing happens on access. -/
def BaseRow_getitem (self : BaseRow) (i : Int) : Except PyErr PyValue :=
  if h : 0 ≤ i ∧ i < (self.row.length : Int) then
    .ok (self.row.get ⟨i.toNat, by omega⟩)
  else .error (.indexError "tuple index out of range")

/-- `PyTuple_GetItem(t, i)` on a record tuple: the element at `i`, an
IndexError past the end, a SystemError-like failure on a non-tuple. -/
def pyTupleGet (t : PyValue) (i : Nat) : Except PyErr PyValue :=
  match t with
  | .tuple xs =>
    match xs.get? i with
    | some v => .ok v
    | Option.none => .error (.indexError "tuple index out of range")
  | _ => .error (.typeError "bad argument to internal function")

/-- `PyLong_AsLong` with its error checked (resultproxy.c lines 390-396). -/
def pyLongAsLong : PyValue → Except PyErr Int
  | .int n => .ok n
  | _ => .error (.typeError "an integer is required")

/-- Modelled from the spec: the owner's `_raise_for_ambiguous_column_name`
callback (external to this core) — "any lookup resolving to this sentinel
must fail with an AmbiguousKey condition naming the offending key"; the C
code (resultproxy.c line 380) hands it the keymap record, which carries the
offending key, and propagates the raise. -/
def raise_for_ambiguous_column_name (record : PyValue) : PyErr :=
  .ambiguousColumn record

/-- The record-resolution step of `BaseRow_getitem_by_object` (resultproxy.c
lines 354-367): look the key up in the keymap dict; on a miss a slice key
draws TypeError, any other key goes to the owner's `_key_fallback`. -/
def resolveRecord (self : BaseRow) (key : PyValue) : Except PyErr PyValue :=
  match dictGet self.keymap key with
  | some r => .ok r
  | Option.none =>
    match key with
    | .slice _ _ => .error (.typeError "can't use slices for mapping access")
    | _ => self.parent.keyFallback key

/-- `BaseRow_getitem_by_object` (resultproxy.c lines 341-410): resolve the
keymap record, read its position slot (item 0); a `None` position is the
ambiguous-key sentinel and fails through the owner's ambiguous-column
callback; otherwise the stored value at that position is returned. The
non-fatal `_warn_for_nonint` deprecation diagnostic (fired when `asmapping`
is false under KEY_OBJECTS_BUT_WARN) does not affect the result and is not
modelled as an effect. -/
def BaseRow_getitem_by_object (self : BaseRow) (key : PyValue) (_asmapping : Bool) :
    Except PyErr PyValue :=
  match resolveRecord self key with
  | .error e => .error e
  | .ok record =>
    match pyTupleGet record 0 with
    | .error e => .error e
    | .ok indexobject =>
      if indexobject = PyValue.none then
        .error (raise_for_ambiguous_column_name record)
      else
        match pyLongAsLong indexobject with
        | .error e => .error e
        | .ok index => BaseRow_getitem self index

/-- The negative-index normalization of `BaseRow_subscript_impl`
(resultproxy.c lines 457-458): a negative index has the row length added
once. -/
def pyNormIndex (len : Nat) (n : Int) : Int :=
  if n < 0 then n + len else n

/-- One boundary of a step-1 CPython slice: default, negative-normalized
and clamped to `[0, len]`. -/
def pySliceBound (len : Nat) (v : Option Int) (dflt : Int) : Int :=
  match v with
  | Option.none => dflt
  | some i =>
    let j := if i < 0 then i + len else i
    if j < 0 then 0 else if j > len then len else j

/-- CPython `t[start:stop]` on a tuple (step 1), as `PyObject_GetItem` with
a slice performs it (resultproxy.c line 462). -/
def pySliceStep1 (xs : List PyValue) (start stop : Option Int) : List PyValue :=
  (xs.take (pySliceBound xs.length stop xs.length).toNat).drop
    (pySliceBound xs.length start 0).toNat

/-- `BaseRow_subscript_impl` (resultproxy.c lines 412-472): an exact-int
key is rejected with KeyError under KEY_OBJECTS_ONLY and otherwise
negative-normalized and fetched positionally; a slice key (outside
KEY_OBJECTS_ONLY) slices the value tuple; every other key resolves through
the keymap. -/
def BaseRow_subscript_impl (self : BaseRow) (key : PyValue) (asmapping : Bool) :
    Except PyErr PyValue :=
  match key with
  | .int n =>
    if self.key_style = KEY_OBJECTS_ONLY then
      .error (.keyError (toString n))
    else
      BaseRow_getitem self (pyNormIndex self.row.length n)
  | .slice a b =>
    if self.key_style ≠ KEY_OBJECTS_ONLY then
      .ok (.tuple (pySliceStep1 self.row a b))
    else
      BaseRow_getitem_by_object self key asmapping
  | _ => BaseRow_getitem_by_object self key asmapping

/-- `BaseRow_subscript` (resultproxy.c lines 474-478). -/
def BaseRow_subscript (self : BaseRow) (key : PyValue) : Except PyErr PyValue :=
  BaseRow_subscript_impl self key false

/-- `BaseRow_subscript_mapping` (resultproxy.c lines 480-489). -/
def BaseRow_subscript_mapping (self : BaseRow) (key : PyValue) : Except PyErr PyValue :=
  if self.key_style = KEY_OBJECTS_BUT_WARN then BaseRow_subscript_impl self key false
  else BaseRow_subscript_impl self key true

mutual

/-- Modelled from the spec: `hash()` is a "hash of the full ordered value
sequence" — `BaseRow_hash` delegates to CPython's `PyObject_Hash` on the
value tuple, whose exact mixing function is external to this core; a
concrete structural hash stands in for it, and all that the claims use is
that it is a pure function of the ordered values. -/
def pyHash : PyValue → Int
  | .none => 17
  | .int n => n
  | .str s => Int.ofNat (s.data.foldl (fun a c => a * 31 + c.toNat) 7)
  | .tuple xs => 3 + 1000003 * pyHashList xs
  | .list xs => 5 + 1000003 * pyHashList xs
  | .dict ps => 7 + 1000003 * pyHashPairs ps
  | .slice _ _ => 11
  | .obj nm _ _ _ => Int.ofNat (nm.data.foldl (fun a c => a * 31 + c.toNat) 13)

/-- `pyHash` folded over a list of values. -/
def pyHashList : List PyValue → Int
  | [] => 1
  | x :: xs => pyHash x + 1000003 * pyHashList xs

/-- `pyHash` folded over key/value pairs. -/
def pyHashPairs : List (PyValue × PyValue) → Int
  | [] => 1
  | (k, v) :: ps => pyHash k + 31 * pyHash v + 1000003 * pyHashPairs ps

end

/-- `BaseRow_hash` (resultproxy.c lines 293-297): `PyObject_Hash(self->row)`
— the hash of the processed value tuple and of nothing else. -/
def BaseRow_hash (r : BaseRow) : Int :=
  pyHash (.tuple r.row)

/-- The state a `__setstate__` call left in a freshly `__new__`-ed BaseRow.
Modelled from the spec: `__setstate__` of a BaseRow subclass is external
Python that populates the fields present in the serialized state; a field
it does not set stays NULL (the pointer slots) or 0 (the C long
`key_style`, zeroed by allocation). -/
structure RowState where
  parent : Option Parent
  row : Option (List PyValue)
  keymap : Option (List (PyValue × PyValue))
  key_style : Option Int

/-- `safe_rowproxy_reconstructor` (resultproxy.c lines 65-95): after
`__setstate__` runs, the `parent`, `row` and `keymap` slots must all have
been populated or reconstruction fails with RuntimeError; `key_style` is a
plain C long that cannot be NULL and is not checked (it keeps the zero the
allocator wrote when the state did not set it). -/
def safe_rowproxy_reconstructor (st : RowState) : Except PyErr BaseRow :=
  match st.parent, st.row, st.keymap with
  | some p, some r, some k =>
      .ok { parent := p, row := r, keymap := k, key_style := st.key_style.getD 0 }
  | _, _, _ =>
      .error (.runtimeError
        "__setstate__ for BaseRow subclasses must set values for parent, row, and keymap")

/-- A concrete owner whose fallback always misses, for witnesses. -/
def parentStub : Parent :=
  ⟨fun _ => .error (.keyError "fallback miss")⟩

/-! ## Claim C1 — the single-sequence branch of `distill_params` -/

/-- C1 (counterexample). The claim reads: when `multiparams` holds exactly
one tuple-or-list `z`, the result is `z` itself if `z` is empty or EVERY
element of `z` is iterable-and-not-string-like, "otherwise the result is
the single-unit list `[z]`". For `z = [(1,), "a"]` not every element is
iterable-and-not-string-like (the string is string-like), so the claim
demands `[z]`; the code inspects only `z[0]` and returns `z` itself. -/
theorem distill_single_mixed_tail_cex :
    distill_params (.tuple [.list [.tuple [.int 1], .str "a"]]) .none =
      .ok (.list [.tuple [.int 1], .str "a"]) ∧
    PyValue.list [.tuple [.int 1], .str "a"] ≠
      PyValue.list [.list [.tuple [.int 1], .str "a"]] :=
  ⟨rfl, by decide⟩

/-- C1 (amended). For `distill_params` called with `multiparams` containing
exactly one element `z` where `z` is a tuple or list: if `z` is empty, or
the FIRST element of `z` is iterable and not string-like, the result is `z`
itself; otherwise the result is the single-unit list `[z]` (utils.c lines
66-111 probe only `multiparams[0][0]`). -/
theorem distill_single_decides_on_first_element (params x : PyValue)
    (xs : List PyValue) :
    distill_params (.tuple [.tuple []]) params = .ok (.tuple []) ∧
    distill_params (.tuple [.list []]) params = .ok (.list []) ∧
    distill_params (.tuple [.tuple (x :: xs)]) params =
      (if hasAttrIter x && !hasAttrStrip x then .ok (.tuple (x :: xs))
       else .ok (.list [.tuple (x :: xs)])) ∧
    distill_params (.tuple [.list (x :: xs)]) params =
      (if hasAttrIter x && !hasAttrStrip x then .ok (.list (x :: xs))
       else .ok (.list [.list (x :: xs)])) := by
  refine ⟨rfl, rfl, ?_, ?_⟩ <;>
    · simp only [distill_params, distillSingle, distillSingleSeq]
      split <;> rfl

/-! ## Claim C10 — `params` cannot influence a non-empty `multiparams` -/

/-- C10. For every non-empty `multiparams` tuple and any two values of the
`params` argument, `distill_params` produces the same result: the
size-zero branch (utils.c lines 45-65) is the only one that reads
`params`. -/
theorem distill_params_ignores_params_for_nonempty_multiparams
    (xs : List PyValue) (hx : xs ≠ []) (p1 p2 : PyValue) :
    distill_params (.tuple xs) p1 = distill_params (.tuple xs) p2 := by
  match xs with
  | [] => exact absurd rfl hx
  | [z] => rfl
  | z0 :: z1 :: rest => rfl

/-- C10 (witness): the theorem applied at a concrete non-empty
`multiparams` and two visibly different `params` values. -/
theorem distill_params_ignores_params_witness :
    distill_params (.tuple [.tuple [.int 1]]) (.dict [(.str "a", .int 1)]) =
      distill_params (.tuple [.tuple [.int 1]]) PyValue.none :=
  distill_params_ignores_params_for_nonempty_multiparams [.tuple [.int 1]]
    (by simp) (.dict [(.str "a", .int 1)]) PyValue.none

/-! ## Dictionary lemmas -/

theorem dictGet_dictSet (d : List (PyValue × PyValue)) (a b k : PyValue) :
    dictGet (dictSet d a b) k = if a = k then some b else dictGet d k := by
  induction d with
  | nil => simp [dictSet, dictGet]
  | cons p rest ih =>
    obtain ⟨x, w⟩ := p
    by_cases hxa : x = a
    · subst hxa
      by_cases hxk : x = k <;> simp [dictSet, dictGet, hxk]
    · by_cases hxk : x = k
      · subst hxk
        have hak : ¬ a = x := fun h => hxa h.symm
        simp [dictSet, dictGet, hxa, hak]
      · simp [dictSet, dictGet, hxa, hxk, ih]

theorem dictGet_eq_none_of_not_mem_keys (d : List (PyValue × PyValue))
    (k : PyValue) (h : k ∉ d.map Prod.fst) : dictGet d k = Option.none := by
  induction d with
  | nil => rfl
  | cons p rest ih =>
    obtain ⟨x, w⟩ := p
    simp only [List.map_cons, List.mem_cons] at h
    push_neg at h
    have hxk : ¬ x = k := fun hh => h.1 hh.symm
    simp [dictGet, hxk, ih h.2]

theorem optOr_none_right (a : Option PyValue) : optOr a Option.none = a := by
  cases a <;> rfl

theorem dictGet_dictUpdate (o : List (PyValue × PyValue))
    (ho : (o.map Prod.fst).Nodup) (d : List (PyValue × PyValue)) (k : PyValue) :
    dictGet (dictUpdate d o) k = optOr (dictGet o k) (dictGet d k) := by
  induction o generalizing d with
  | nil => simp [dictUpdate, dictGet, optOr]
  | cons p rest ih =>
    obtain ⟨a, b⟩ := p
    simp only [List.map_cons, List.nodup_cons] at ho
    have step : dictUpdate d ((a, b) :: rest) = dictUpdate (dictSet d a b) rest := rfl
    rw [step, ih ho.2, dictGet_dictSet]
    by_cases hak : a = k
    · subst hak
      have : dictGet rest a = Option.none :=
        dictGet_eq_none_of_not_mem_keys rest a ho.1
      simp [dictGet, this, optOr]
    · simp [dictGet, hak]

/-! ## Claim C4 — identity fast paths of `union` and `merge_with` -/

/-- `mergeLoop` receives no data from arguments that are None or empty
exact dicts, so the `new_dict` accumulator stays unset. -/
theorem mergeLoop_trivial_args (m : List (PyValue × PyValue)) :
    ∀ args : List PyValue,
      (∀ el ∈ args, el = PyValue.none ∨ el = PyValue.dict []) →
      mergeLoop m args Option.none = .ok Option.none := by
  intro args
  induction args with
  | nil => intro _; rfl
  | cons el rest ih =>
    intro h
    rcases h el (List.mem_cons_self el rest) with he | he <;> subst he <;>
      simp [mergeLoop, ih fun x hx => h x (List.mem_cons_of_mem _ hx)]

/-- C4 (counterexample). The claim reads: `m.merge_with(args...)` "returns
the very same instance m whenever every argument is absent, none, or
empty". An empty NON-dict argument (here the empty list `[]`) is converted
with `dict()` and, with no emptiness check on that path (immutabledict.c
lines 250-263), forces allocation of a new instance: the result is a fresh
`newInstance`, not the identity return `self`. -/
theorem merge_with_empty_nondict_allocates_cex :
    ImmutableDict_merge_with [(.str "a", .int 1)] [.list []] =
      .ok (.newInstance [(.str "a", .int 1)]) ∧
    (DictResult.newInstance [(.str "a", .int 1)]) ≠ DictResult.self :=
  ⟨rfl, by simp⟩

/-- C4 (amended). `m.union(e)` with an empty argument (an empty dict, list
or tuple) returns the very same instance; `m.merge_with(args...)` returns
the very same instance whenever every argument is None or an empty EXACT
dict — an empty non-dict argument instead allocates a new (equal)
instance. -/
theorem immutabledict_identity_fast_paths (m : List (PyValue × PyValue))
    (arg : PyValue) (args : List PyValue)
    (harg : arg = PyValue.dict [] ∨ arg = PyValue.list [] ∨ arg = PyValue.tuple [])
    (hargs : ∀ el ∈ args, el = PyValue.none ∨ el = PyValue.dict []) :
    ImmutableDict_union m arg = .ok .self ∧
    ImmutableDict_merge_with m args = .ok .self := by
  constructor
  · rcases harg with h | h | h <;> subst h <;> rfl
  · unfold ImmutableDict_merge_with
    rw [mergeLoop_trivial_args m args hargs]

/-- C4 (witness): the identity fast paths at a concrete mapping, an empty
dict union argument and a None-plus-empty-dict argument list. -/
theorem immutabledict_identity_witness :
    ImmutableDict_union [(.str "a", .int 1)] (.dict []) = .ok .self ∧
    ImmutableDict_merge_with [(.str "a", .int 1)] [.none, .dict []] = .ok .self :=
  immutabledict_identity_fast_paths [(.str "a", .int 1)] (.dict [])
    [.none, .dict []] (Or.inl rfl) (by intro el hel; fin_cases hel <;> simp)

/-! ## Claim C5 — `union` with a non-empty argument overlays `self` -/

/-- C5. For every ImmutableDict `m` and non-empty dict argument `o` (both
with the unique keys every Python dict has), `union` allocates a new
instance — never the identity return — whose lookup is `o`'s value on every
key of `o` and `m`'s value on every other key; `m` itself is a value the
operation never modifies (the new dict is built by updating a fresh empty
dict, immutabledict.c lines 194-210). -/
theorem union_nonempty_overlays (m o : List (PyValue × PyValue))
    (hm : (m.map Prod.fst).Nodup) (ho : (o.map Prod.fst).Nodup) (hne : o ≠ []) :
    ImmutableDict_union m (.dict o) =
      .ok (.newInstance (dictUpdate (dictUpdate [] m) o)) ∧
    (∀ k, dictGet (dictUpdate (dictUpdate [] m) o) k =
      optOr (dictGet o k) (dictGet m k)) ∧
    ImmutableDict_union m (.dict o) ≠ .ok .self := by
  have hlen : ¬ o.length = 0 := by
    simpa [List.length_eq_zero] using hne
  refine ⟨?_, ?_, ?_⟩
  · simp [ImmutableDict_union, hlen]
  · intro k
    rw [dictGet_dictUpdate o ho, dictGet_dictUpdate m hm, dictGet]
    rw [optOr_none_right]
  · simp [ImmutableDict_union, hlen]

/-- C5 (witness): the overlay at concrete mappings sharing the key "b". -/
theorem union_nonempty_witness :
    ImmutableDict_union [(.str "a", .int 1), (.str "b", .int 2)]
        (.dict [(.str "b", .int 3), (.str "c", .int 4)]) =
      .ok (.newInstance (dictUpdate
        (dictUpdate [] [(.str "a", .int 1), (.str "b", .int 2)])
        [(.str "b", .int 3), (.str "c", .int 4)])) :=
  (union_nonempty_overlays [(.str "a", .int 1), (.str "b", .int 2)]
    [(.str "b", .int 3), (.str "c", .int 4)]
    (by decide) (by decide) (by simp)).1

/-! ## Claim C8 — `__getitem__` on an absent key -/

/-- C8 (code bug). The claim (and spec §4.1) requires indexed lookup to
fail with KeyNotFound rendering the key "for every absent key, whatever its
type". The code's miss path converts the key with
`PyUnicode_AsUTF8String` (immutabledict.c line 125), which only succeeds
for string keys: an absent string key gets the intended KeyError carrying
the key's text, but an absent non-string key (here the int 42) makes the
conversion itself fail, so a TypeError about the conversion escapes instead
of the KeyError the spec requires. -/
theorem immutabledict_subscript_nonstring_key_bug :
    ImmutableDict_subscript [(.str "a", .int 1)] (.int 42) =
      .error (.typeError "bad argument type for built-in operation") ∧
    (∀ s, ImmutableDict_subscript [(.str "a", .int 1)] (.int 42) ≠
      .error (.keyError s)) ∧
    ImmutableDict_subscript [(.str "a", .int 1)] (.str "q") =
      .error (.keyError "q") := by
  refine ⟨rfl, ?_, rfl⟩
  intro s h
  rw [show ImmutableDict_subscript [(.str "a", .int 1)] (.int 42) =
      .error (.typeError "bad argument type for built-in operation") from rfl] at h
  simp at h

/-! ## BaseRow lemmas -/

theorem getitem_nat (r : BaseRow) (p : Nat) (hp : p < r.row.length) :
    BaseRow_getitem r (p : Int) = .ok (r.row.get ⟨p, hp⟩) := by
  unfold BaseRow_getitem
  rw [dif_pos (by constructor <;> omega)]
  have hv : ((p : Int)).toNat = p := by omega
  exact congrArg (fun j => Except.ok (r.row.get j)) (Fin.ext hv)

theorem procCallPositions_le (fs : List Proc) :
    ∀ (k x : Nat), x ∈ procCallPositions fs k → k ≤ x := by
  induction fs with
  | nil => intro k x hx; simp [procCallPositions] at hx
  | cons f fs ih =>
    intro k x hx
    cases f with
    | none =>
      have := ih (k + 1) x (by simpa [procCallPositions] using hx)
      omega
    | some g =>
      simp only [procCallPositions, List.mem_cons] at hx
      rcases hx with rfl | hx
      · omega
      · have := ih (k + 1) x hx; omega

theorem procCallPositions_nodup (fs : List Proc) :
    ∀ k : Nat, (procCallPositions fs k).Nodup := by
  induction fs with
  | nil => intro k; simp [procCallPositions]
  | cons f fs ih =>
    intro k
    cases f with
    | none => simpa [procCallPositions] using ih (k + 1)
    | some g =>
      simp only [procCallPositions, List.nodup_cons]
      refine ⟨fun hk => ?_, ih (k + 1)⟩
      have := procCallPositions_le fs (k + 1) k hk
      omega

/-- What a successful run of the processing loop guarantees: the output
values are the raw values passed through their own processor (or unchanged
at sentinel positions), and the trace is exactly the non-sentinel
positions. -/
theorem applyProcessors_ok (ps : List Proc) :
    ∀ (vs : List PyValue) (k : Nat) (out : List PyValue × List Nat),
      applyProcessors ps vs k = .ok out → ps.length = vs.length →
      out.1.length = vs.length ∧
      out.2 = procCallPositions ps k ∧
      (∀ i (hi : i < vs.length) (hp : i < ps.length) (hr : i < out.1.length),
        (ps.get ⟨i, hp⟩ = Option.none → out.1.get ⟨i, hr⟩ = vs.get ⟨i, hi⟩) ∧
        (∀ f, ps.get ⟨i, hp⟩ = some f →
          f (vs.get ⟨i, hi⟩) = .ok (out.1.get ⟨i, hr⟩))) := by
  induction ps with
  | nil =>
    intro vs k out h hlen
    have hvs : vs = [] := by
      cases vs with
      | nil => rfl
      | cons v vs => simp at hlen
    subst hvs
    obtain ⟨outv, outt⟩ := out
    simp only [applyProcessors, Except.ok.injEq, Prod.mk.injEq] at h
    obtain ⟨h1, h2⟩ := h
    subst h1; subst h2
    refine ⟨rfl, rfl, ?_⟩
    intro i hi
    simp at hi
  | cons f fs ih =>
    intro vs k out h hlen
    cases vs with
    | nil => simp at hlen
    | cons v vs =>
      have hlen2 : fs.length = vs.length := by simpa using hlen
      obtain ⟨outv, outt⟩ := out
      cases f with
      | none =>
        simp only [applyProcessors] at h
        cases happ : applyProcessors fs vs (k + 1) with
        | error e => rw [happ] at h; simp at h
        | ok pr =>
          obtain ⟨rest, tr⟩ := pr
          rw [happ] at h
          simp only [Except.ok.injEq, Prod.mk.injEq] at h
          obtain ⟨h1, h2⟩ := h
          subst h1; subst h2
          obtain ⟨ihlen, ihtr, ihpt⟩ := ih vs (k + 1) (rest, tr) happ hlen2
          refine ⟨by simpa using ihlen, by simpa [procCallPositions] using ihtr, ?_⟩
          intro i hi hp hr
          cases i with
          | zero => exact ⟨fun _ => rfl, fun g hg => by simp at hg⟩
          | succ i =>
            have hi2 : i < vs.length := by simpa using hi
            have hp2 : i < fs.length := by simpa using hp
            have hr2 : i < rest.length := by simpa using hr
            simpa [List.get_cons_succ] using ihpt i hi2 hp2 hr2
      | some g =>
        simp only [applyProcessors] at h
        cases hg : g v with
        | error e => rw [hg] at h; simp at h
        | ok pv =>
          rw [hg] at h
          cases happ : applyProcessors fs vs (k + 1) with
          | error e => rw [happ] at h; simp at h
          | ok pr =>
            obtain ⟨rest, tr⟩ := pr
            rw [happ] at h
            simp only [Except.ok.injEq, Prod.mk.injEq] at h
            obtain ⟨h1, h2⟩ := h
            subst h1; subst h2
            obtain ⟨ihlen, ihtr, ihpt⟩ := ih vs (k + 1) (rest, tr) happ hlen2
            refine ⟨by simpa using ihlen, by simpa [procCallPositions] using ihtr, ?_⟩
            intro i hi hp hr
            cases i with
            | zero =>
              refine ⟨fun hn => by simp at hn, fun g2 hg2 => ?_⟩
              have : g2 = g := by simpa using hg2.symm
              subst this
              simpa using hg
            | succ i =>
              have hi2 : i < vs.length := by simpa using hi
              have hp2 : i < fs.length := by simpa using hp
              have hr2 : i < rest.length := by simpa using hr
              simpa [List.get_cons_succ] using ihpt i hi2 hp2 hr2

/-- The processing loop succeeds whenever every processor call on its own
raw value succeeds. -/
theorem applyProcessors_total (ps : List Proc) :
    ∀ (vs : List PyValue) (k : Nat),
      ps.length = vs.length →
      (∀ i (hi : i < vs.length) (hp : i < ps.length)
          (f : PyValue → Except PyErr PyValue),
        ps.get ⟨i, hp⟩ = some f → ∃ w, f (vs.get ⟨i, hi⟩) = .ok w) →
      ∃ out, applyProcessors ps vs k = .ok out := by
  induction ps with
  | nil =>
    intro vs k hlen _
    cases vs with
    | nil => exact ⟨([], []), rfl⟩
    | cons v vs => simp at hlen
  | cons f fs ih =>
    intro vs k hlen hall
    cases vs with
    | nil => simp at hlen
    | cons v vs =>
      have hlen2 : fs.length = vs.length := by simpa using hlen
      have hall2 : ∀ i (hi : i < vs.length) (hp : i < fs.length)
          (g : PyValue → Except PyErr PyValue),
          fs.get ⟨i, hp⟩ = some g → ∃ w, g (vs.get ⟨i, hi⟩) = .ok w := by
        intro i hi hp g hg
        exact hall (i + 1) (by simpa using hi) (by simpa using hp) g
          (by simpa using hg)
      obtain ⟨out2, hout2⟩ := ih vs (k + 1) hlen2 hall2
      obtain ⟨rest, tr⟩ := out2
      cases f with
      | none =>
        refine ⟨(v :: rest, tr), ?_⟩
        simp only [applyProcessors, hout2]
      | some g =>
        obtain ⟨w, hw⟩ := hall 0 (by simp) (by simp) g rfl
        have hw2 : g v = .ok w := hw
        refine ⟨(w :: rest, k :: tr), ?_⟩
        simp only [applyProcessors, hw2, hout2]

/-! ## Claim C2 — `BaseRow_init`: length check and eager one-pass coercion -/

/-- C2. For every Row construction: with processors supplied (not the None
sentinel), a processor count differing from the value count is a fatal
RuntimeError; when construction succeeds, the stored tuple holds each raw
value passed through its own processor (the raw value unchanged where the
entry is the None sentinel), with the processors invoked exactly once
each, at construction time — the invocation trace is exactly the
duplicate-free list of non-sentinel positions, and the constructed row
retains no processors to invoke later; with matching counts and every
processor call succeeding on its raw value (processors are pure
coercions per the spec), construction does succeed; and with the
no-processing None sentinel, construction succeeds storing the raw values
with no processor invocation at all. -/
theorem baserow_init_length_check_and_eager_processing
    (parent : Parent) (ps : List Proc) (km : List (PyValue × PyValue))
    (ksv : PyValue) (vs : List PyValue) :
    (ps.length ≠ vs.length →
      BaseRow_init parent (some ps) (.dict km) ksv (.tuple vs) =
        .error (.runtimeError (initLengthMsg vs.length ps.length))) ∧
    (∀ r trace,
      BaseRow_init parent (some ps) (.dict km) ksv (.tuple vs) = .ok (r, trace) →
      r.row.length = vs.length ∧
      trace = procCallPositions ps 0 ∧ trace.Nodup ∧
      (∀ i (hi : i < vs.length) (hp : i < ps.length) (hr : i < r.row.length),
        (ps.get ⟨i, hp⟩ = Option.none → r.row.get ⟨i, hr⟩ = vs.get ⟨i, hi⟩) ∧
        (∀ f, ps.get ⟨i, hp⟩ = some f →
          f (vs.get ⟨i, hi⟩) = .ok (r.row.get ⟨i, hr⟩)))) ∧
    (ps.length = vs.length →
      (∀ i (hi : i < vs.length) (hp : i < ps.length)
          (f : PyValue → Except PyErr PyValue),
        ps.get ⟨i, hp⟩ = some f → ∃ w, f (vs.get ⟨i, hi⟩) = .ok w) →
      ∃ r trace,
        BaseRow_init parent (some ps) (.dict km) ksv (.tuple vs) = .ok (r, trace)) ∧
    BaseRow_init parent Option.none (.dict km) ksv (.tuple vs) =
      .ok ({ parent := parent, row := vs, keymap := km,
             key_style := pyLongAsLongLenient ksv }, []) := by
  refine ⟨?_, ?_, ?_, rfl⟩
  · intro hne
    simp only [BaseRow_init, pySequenceFast]
    rw [if_pos (by omega)]
  case refine_3 =>
    intro hlen hall
    obtain ⟨out, hout⟩ := applyProcessors_total ps vs 0 hlen hall
    obtain ⟨result, tr⟩ := out
    refine ⟨{ parent := parent, row := result, keymap := km,
              key_style := pyLongAsLongLenient ksv }, tr, ?_⟩
    simp only [BaseRow_init, pySequenceFast]
    rw [if_neg (by omega), hout]
    rfl
  · intro r trace h
    simp only [BaseRow_init, pySequenceFast] at h
    by_cases hlen : vs.length = ps.length
    · rw [if_neg (by omega)] at h
      cases happ : applyProcessors ps vs 0 with
      | error e => rw [happ] at h; simp at h
      | ok pr =>
        obtain ⟨result, tr⟩ := pr
        rw [happ] at h
        simp only [finishInit, Except.ok.injEq, Prod.mk.injEq] at h
        obtain ⟨h1, h2⟩ := h
        subst h2
        subst h1
        obtain ⟨ihlen, ihtr, ihpt⟩ :=
          applyProcessors_ok ps vs 0 (result, tr) happ hlen.symm
        have ihtr2 : tr = procCallPositions ps 0 := ihtr
        refine ⟨ihlen, ihtr2, ?_, fun i hi hp hr => ihpt i hi hp hr⟩
        rw [ihtr2]
        exact procCallPositions_nodup ps 0
    · rw [if_pos (by omega)] at h
      simp at h

/-- C2 (witness): the length mismatch at a concrete 2-value/1-processor
call, and the trace/values of a concrete successful construction with one
sentinel and one real processor. -/
theorem baserow_init_witness :
    BaseRow_init parentStub (some [Option.none]) (.dict []) (.int 0)
      (.tuple [.int 5, .int 6]) =
      .error (.runtimeError (initLengthMsg 2 1)) ∧
    ([1] : List Nat) =
      procCallPositions [Option.none, some (fun v => .ok (.tuple [v]))] 0 := by
  constructor
  · exact (baserow_init_length_check_and_eager_processing parentStub
      [Option.none] [] (.int 0) [.int 5, .int 6]).1 (by decide)
  · exact ((baserow_init_length_check_and_eager_processing parentStub
      [Option.none, some (fun v => .ok (.tuple [v]))] [] (.int 2)
      [.int 10, .int 20]).2.1
      ⟨parentStub, [.int 10, .tuple [.int 20]], [], 2⟩ [1] rfl).2.1

/-! ## Claim C3 — ambiguous keys fail through the owner, positions remain fine -/

/-- C3. For every Row and non-integer, non-slice key whose keymap record
carries the ambiguous sentinel (position slot None), keyed lookup fails
with the AmbiguousKey error produced through the owner's ambiguous-column
callback, carrying the offending record; positional lookup of every
in-range position (in particular each of the aliased columns' positions)
still succeeds and returns the stored value. -/
theorem row_ambiguous_key_fails_positional_succeeds
    (r : BaseRow) (key record : PyValue) (rest : List PyValue) (asm : Bool)
    (hk : dictGet r.keymap key = some record)
    (hrec : record = .tuple (PyValue.none :: rest))
    (hint : ∀ n : Int, key ≠ .int n)
    (hslice : ∀ a b, key ≠ .slice a b) :
    BaseRow_subscript_impl r key asm = .error (.ambiguousColumn record) ∧
    ∀ p (hp : p < r.row.length),
      BaseRow_getitem r (p : Int) = .ok (r.row.get ⟨p, hp⟩) := by
  have hobj : BaseRow_getitem_by_object r key asm =
      .error (.ambiguousColumn record) := by
    unfold BaseRow_getitem_by_object resolveRecord
    rw [hk]
    subst hrec
    simp [pyTupleGet, raise_for_ambiguous_column_name]
  constructor
  · cases key with
    | int n => exact absurd rfl (hint n)
    | slice a b => exact absurd rfl (hslice a b)
    | none => exact hobj
    | str s => exact hobj
    | tuple xs => exact hobj
    | list xs => exact hobj
    | dict d => exact hobj
    | obj nm a b c => exact hobj
  · intro p hp
    exact getitem_nat r p hp

/-- C3 (witness): a concrete row with two columns both aliased to key "x"
(ambiguous record), where `row["x"]` fails as ambiguous while `row[0]` and
`row[1]` still return the stored values. -/
theorem row_ambiguous_key_witness :
    BaseRow_subscript_impl
      ⟨parentStub, [.int 10, .int 20], [(.str "x", .tuple [PyValue.none])], 2⟩
      (.str "x") false = .error (.ambiguousColumn (.tuple [PyValue.none])) ∧
    BaseRow_getitem
      ⟨parentStub, [.int 10, .int 20], [(.str "x", .tuple [PyValue.none])], 2⟩
      (0 : Int) = .ok (.int 10) ∧
    BaseRow_getitem
      ⟨parentStub, [.int 10, .int 20], [(.str "x", .tuple [PyValue.none])], 2⟩
      (1 : Int) = .ok (.int 20) := by
  have h := row_ambiguous_key_fails_positional_succeeds
    ⟨parentStub, [.int 10, .int 20], [(.str "x", .tuple [PyValue.none])], 2⟩
    (.str "x") (.tuple [PyValue.none]) [] false
    (by decide) rfl (fun n hn => by simp at hn) (fun a b hn => by simp at hn)
  exact ⟨h.1, h.2 0 (by decide), h.2 1 (by decide)⟩

/-! ## Claim C6 — integer subscripting: normalization and bounds -/

/-- C6 (counterexample). The claim reads: "For every Row ... and every
integer index i", in-range access returns the stored value. For a Row
whose key_style is KEY_OBJECTS_ONLY the integer branch of
`BaseRow_subscript_impl` (resultproxy.c lines 438-447) rejects even the
in-range index 0 with KeyError instead of returning the stored value 10. -/
theorem subscript_objects_only_int_cex :
    BaseRow_subscript_impl
      ⟨parentStub, [.int 10, .int 20, .int 30], [], KEY_OBJECTS_ONLY⟩
      (.int 0) false = .error (.keyError "0") ∧
    (Except.error (PyErr.keyError "0") : Except PyErr PyValue) ≠ .ok (.int 10) :=
  ⟨rfl, by simp⟩

/-- C6 (amended). For every Row whose key_style is not KEY_OBJECTS_ONLY and
every integer index i: a negative i is first normalized by adding the row
length; access then returns the stored (already coerced) value at the
normalized position when it lies in `[0, length)` and fails with
IndexError otherwise. (Under KEY_OBJECTS_ONLY, integer keys are rejected
with KeyError instead — see the counterexample.) -/
theorem subscript_integer_normalization (r : BaseRow) (n : Int) (asm : Bool)
    (hstyle : r.key_style ≠ KEY_OBJECTS_ONLY) :
    (∀ h : 0 ≤ pyNormIndex r.row.length n ∧
        pyNormIndex r.row.length n < (r.row.length : Int),
      BaseRow_subscript_impl r (.int n) asm =
        .ok (r.row.get ⟨(pyNormIndex r.row.length n).toNat, by omega⟩)) ∧
    (¬ (0 ≤ pyNormIndex r.row.length n ∧
        pyNormIndex r.row.length n < (r.row.length : Int)) →
      BaseRow_subscript_impl r (.int n) asm =
        .error (.indexError "tuple index out of range")) := by
  have hred : BaseRow_subscript_impl r (.int n) asm =
      BaseRow_getitem r (pyNormIndex r.row.length n) := by
    simp [BaseRow_subscript_impl, hstyle]
  constructor
  · intro h
    rw [hred]
    unfold BaseRow_getitem
    rw [dif_pos h]
  · intro h
    rw [hred]
    unfold BaseRow_getitem
    rw [dif_neg h]

/-- C6 (witness): on the spec's example row `(10, 20, 30)` (key_style 0),
`row[-1]` normalizes to position 2 and returns 30, while `row[5]` fails
with IndexError. -/
theorem subscript_integer_normalization_witness :
    BaseRow_subscript_impl ⟨parentStub, [.int 10, .int 20, .int 30], [], 0⟩
      (.int (-1)) false = .ok (.int 30) ∧
    BaseRow_subscript_impl ⟨parentStub, [.int 10, .int 20, .int 30], [], 0⟩
      (.int 5) false = .error (.indexError "tuple index out of range") := by
  have h1 := subscript_integer_normalization
    ⟨parentStub, [.int 10, .int 20, .int 30], [], 0⟩ (-1) false (by decide)
  have h2 := subscript_integer_normalization
    ⟨parentStub, [.int 10, .int 20, .int 30], [], 0⟩ 5 false (by decide)
  exact ⟨h1.1 (by decide), h2.2 (by decide)⟩

/-! ## Claim C7 — reconstruction validates three fields, not four -/

/-- C7 (counterexample). The claim reads: reconstruction "validates that
all four required fields (owner, keymap, key_style, values) were populated
... and fails ... if any of the four is missing". A state that populates
owner, values and keymap but NOT key_style is reconstructed successfully
(key_style silently keeps the allocator's 0): `safe_rowproxy_reconstructor`
checks only the three pointer fields (resultproxy.c lines 85-92). -/
theorem reconstructor_missing_key_style_cex :
    safe_rowproxy_reconstructor
      { parent := some parentStub, row := some [.int 1], keymap := some [],
        key_style := Option.none } =
      .ok { parent := parentStub, row := [.int 1], keymap := [], key_style := 0 } :=
  rfl

/-- C7 (amended). Reconstruction from serialized state validates that the
three pointer fields (owner, keymap, values) were populated by state
restoration and fails with a fatal RuntimeError if any of those three is
missing — a Row missing one of them is never returned; `key_style` is a
plain integer that is not validated and defaults to 0 when the state did
not set it. -/
theorem reconstructor_validates_parent_row_keymap (st : RowState) :
    ((st.parent = Option.none ∨ st.row = Option.none ∨ st.keymap = Option.none) →
      safe_rowproxy_reconstructor st =
        .error (.runtimeError
          "__setstate__ for BaseRow subclasses must set values for parent, row, and keymap")) ∧
    (∀ p r k, st.parent = some p → st.row = some r → st.keymap = some k →
      safe_rowproxy_reconstructor st =
        .ok { parent := p, row := r, keymap := k,
              key_style := st.key_style.getD 0 }) := by
  obtain ⟨op, orow, okm, oks⟩ := st
  constructor
  · intro h
    rcases h with h | h | h
    · simp only at h; subst h; cases orow <;> cases okm <;> rfl
    · simp only at h; subst h; cases op <;> cases okm <;> rfl
    · simp only at h; subst h; cases op <;> cases orow <;> rfl
  · intro p r k hp hr hk
    simp only at hp hr hk
    subst hp; subst hr; subst hk
    rfl

/-- C7 (witness): a state missing its owner is rejected, a fully populated
state reconstructs with its own key_style. -/
theorem reconstructor_witness :
    safe_rowproxy_reconstructor
      { parent := Option.none, row := some [.int 1], keymap := some [],
        key_style := some 2 } =
      .error (.runtimeError
        "__setstate__ for BaseRow subclasses must set values for parent, row, and keymap") ∧
    safe_rowproxy_reconstructor
      { parent := some parentStub, row := some [.int 1], keymap := some [],
        key_style := some 2 } =
      .ok { parent := parentStub, row := [.int 1], keymap := [], key_style := 2 } :=
  ⟨(reconstructor_validates_parent_row_keymap _).1 (Or.inl rfl),
   (reconstructor_validates_parent_row_keymap _).2 parentStub [.int 1] []
     rfl rfl rfl⟩

/-! ## Claim C9 — the hash is a function of the value sequence only -/

/-- C9. Two rows with equal stored value sequences hash equal whatever
their owners, keymaps and key styles (`BaseRow_hash` reads nothing but
`self->row`), and rows with unequal value sequences may hash differently. -/
theorem row_hash_depends_only_on_values :
    (∀ r1 r2 : BaseRow, r1.row = r2.row → BaseRow_hash r1 = BaseRow_hash r2) ∧
    (∃ r1 r2 : BaseRow, r1.row ≠ r2.row ∧ BaseRow_hash r1 ≠ BaseRow_hash r2) := by
  constructor
  · intro r1 r2 h
    unfold BaseRow_hash
    rw [h]
  · refine ⟨⟨parentStub, [.int 1, .int 2], [], 0⟩,
      ⟨parentStub, [.int 1, .int 3], [], 0⟩, by decide, by decide⟩

/-- C9 (witness): equal value sequences under different owners, keymaps
and key styles hash equal. -/
theorem row_hash_witness :
    BaseRow_hash ⟨parentStub, [.int 1, .int 2], [], 0⟩ =
      BaseRow_hash ⟨⟨fun k => .ok k⟩, [.int 1, .int 2], [(.str "k", .int 0)], 3⟩ :=
  row_hash_depends_only_on_values.1 _ _ rfl

end SqlaC
